import Mathlib

/-
Verification of rss_checker_redux (src/main.rs, src/walker.rs, src/error.rs)
against its natural-language specification.

The program is embedded shallowly:
- pure Rust functions become Lean functions with the same names;
- the injected I/O strategies (cache reader, feed fetcher, cache writer)
  become explicit values and state-passing over a model of the cache
  directory, mirroring the dependency-injection structure of the source;
- fallible operations return Except.

External crates (url, rss, atom_syndication, reqwest) are modelled at the
observation granularity of this program: a URL is its parsed components, a
serialized feed file is a tagged value that round-trips through the feed
parsers, network and filesystem failures are injected as values.
-/

namespace RssChecker

/-- Model of url::ParseError, the error type of Url::parse: only the cases
the model can produce are represented. -/
inductive ParseError
  | relativeUrlWithoutBase
  | emptyHost
deriving DecidableEq, Repr

/-- Splits a character list at the first occurrence of the three characters
colon slash slash, returning the part before and the part after, or none
when the separator does not occur. -/
def splitAtSchemeSep : List Char → Option (List Char × List Char)
  | [] => none
  | ':' :: '/' :: '/' :: rest => some ([], rest)
  | c :: rest =>
    match splitAtSchemeSep rest with
    | some (pre, post) => some (c :: pre, post)
    | none => none

/-- Model of url::Url (the reqwest::Url re-export): a parsed absolute URL.
The url crate identifies two Url values exactly when their serializations
are equal; in this model the serialization is determined componentwise, so
structural equality coincides with serialization equality. -/
structure Url where
  scheme : String
  host : String
  path : String
deriving DecidableEq, Repr

/-- Model of url::Url::parse restricted to hierarchical scheme://host/path
URLs, faithful to the WHATWG parser the url crate implements on that
fragment: the scheme and host are lowercased during parsing, an empty path
serializes as a single slash, and an input with no scheme (a relative URL)
fails with RelativeUrlWithoutBase. Userinfo, ports, query strings,
fragments and percent-encoding are outside the modelled fragment. -/
def Url.parseResult (s : String) : Except ParseError Url :=
  match splitAtSchemeSep s.data with
  | none => .error .relativeUrlWithoutBase
  | some (schemeChars, rest) =>
    if schemeChars ≠ [] ∧ schemeChars.all Char.isAlpha then
      let hostChars := rest.takeWhile (fun c => c ≠ '/')
      let pathChars := rest.dropWhile (fun c => c ≠ '/')
      if hostChars ≠ [] then
        .ok { scheme := String.mk (schemeChars.map Char.toLower),
              host := String.mk (hostChars.map Char.toLower),
              path := if pathChars = [] then "/" else String.mk pathChars }
      else .error .emptyHost
    else .error .relativeUrlWithoutBase

/-- Model of Url::parse(..).ok() as used in get_links. -/
def Url.parse (s : String) : Option Url :=
  (Url.parseResult s).toOption

/-- Model of url::Url::to_string: the serialization of the parsed URL. -/
def Url.toString (u : Url) : String :=
  u.scheme ++ "://" ++ u.host ++ u.path

/-- Model of rss::Item restricted to the one field this program reads: the
optional link string. -/
structure Item where
  link : Option String
deriving DecidableEq, Repr

/-- Model of rss::Channel restricted to its item list. -/
structure Channel where
  items : List Item
deriving DecidableEq, Repr

/-- Model of atom_syndication::Link restricted to its href string. -/
structure AtomLink where
  href : String
deriving DecidableEq, Repr

/-- Model of atom_syndication::Entry restricted to its link list. -/
structure Entry where
  links : List AtomLink
deriving DecidableEq, Repr

/-- Model of atom_syndication::Feed restricted to its entry list. -/
structure Feed where
  entries : List Entry
deriving DecidableEq, Repr

/-- enum RssOrAtomFeed from main.rs. -/
inductive RssOrAtomFeed
  | Rss2 (channel : Channel)
  | Atom (feed : Feed)
deriving DecidableEq, Repr

/-- impl LinkProduceable for rss::Channel: extract each item link, keep
those that parse as URLs. -/
def Channel.get_links (c : Channel) : List Url :=
  (c.items.filterMap Item.link).filterMap Url.parse

/-- impl LinkProduceable for atom_syndication::Feed: flatten the entry
links, keep the hrefs that parse as URLs. -/
def Feed.get_links (f : Feed) : List Url :=
  (f.entries.map Entry.links).flatten.map AtomLink.href |>.filterMap Url.parse

/-- impl LinkProduceable for RssOrAtomFeed: dispatch on the variant. -/
def RssOrAtomFeed.get_links : RssOrAtomFeed → List Url
  | .Rss2 channel => channel.get_links
  | .Atom feed => feed.get_links

/-- Model of std::io::ErrorKind restricted to the cases the program
distinguishes: NotFound versus everything else. -/
inductive IoErrorKind
  | notFound
  | permissionDenied
  | otherKind
deriving DecidableEq, Repr

/-- Model of std::io::Error at the granularity the program observes. -/
structure IoError where
  kind : IoErrorKind
deriving DecidableEq, Repr

/-- Model of reqwest::Error as an opaque token. -/
structure ReqwestError where
  tag : String
deriving DecidableEq, Repr

/-- Model of rss::Error as an opaque token. -/
structure RssError where
  tag : String
deriving DecidableEq, Repr

/-- Model of std::ffi::OsString: either valid text or an unrepresentable
byte sequence. -/
inductive OsStringM
  | valid (s : String)
  | invalid (bytes : List Nat)
deriving DecidableEq, Repr

/-- Model of OsString::into_string: the valid case yields the text, the
invalid case returns the OsString itself as the error. -/
def OsStringM.into_string : OsStringM → Except OsStringM String
  | .valid s => .ok s
  | .invalid b => .error (.invalid b)

/-- enum ErrorKind from error.rs, including the variants main.rs requires
for the dual-format build (AtomErr, FeedIsNeitherAtomOrRss, InvalidCache). -/
inductive ErrorKind
  | InvalidUrl (reason : ParseError) (url : String)
  | DuplicateFeed (name : String)
  | IoErr (err : IoError)
  | InvalidFilename (name : OsStringM)
  | ReqwestErr (err : ReqwestError)
  | RssErr (err : RssError)
  | AtomErr (msg : String)
  | FeedIsNeitherAtomOrRss (name : String)
  | InvalidCache (name : String)
deriving DecidableEq, Repr

/-- struct Error from error.rs. -/
structure Error where
  kind : ErrorKind
  data : Option String
deriving DecidableEq, Repr

/-- Error::new from error.rs. -/
def Error.new (kind : ErrorKind) : Error :=
  { kind := kind, data := none }

/-- Error::with_data from error.rs. -/
def Error.with_data (e : Error) (data : String) : Error :=
  { e with data := some data }

/-- Model of the bytes of one cache file at the observation granularity of
this program: a file written by Channel::write_to parses back with
Channel::read_from and fails Feed::read_from, a file written by
Feed::write_to does the opposite, a file that is neither (including an
empty truncated file) fails both parsers. This models the round-tripping
serializers of the rss and atom_syndication crates. -/
inductive FileContent
  | rssXml (channel : Channel)
  | atomXml (feed : Feed)
  | otherBytes (raw : String)
deriving DecidableEq, Repr

/-- Model of the cache directory: the optional file content stored under
each feed name. -/
def Cache : Type := String → Option FileContent

/-- Model of Channel::write_to and Feed::write_to on a successful
serialization: the bytes a later read parses back to the same document. -/
def RssOrAtomFeed.encode : RssOrAtomFeed → FileContent
  | .Rss2 channel => .rssXml channel
  | .Atom feed => .atomXml feed

/-- load_cached_feed_from_disk from main.rs, applied to one feed name: a
missing file is a NotFound IoErr, an RSS file loads as Rss2, an Atom file
loads as Atom, anything else is InvalidCache. -/
def load_cached_feed_from_disk (cache : Cache) (feed_name : String) :
    Except Error RssOrAtomFeed :=
  match cache feed_name with
  | none =>
    .error ((Error.new (.IoErr { kind := .notFound })).with_data
      ("feed[" ++ feed_name ++ "]"))
  | some (.rssXml channel) => .ok (.Rss2 channel)
  | some (.atomXml feed) => .ok (.Atom feed)
  | some (.otherBytes _) => .error (Error.new (.InvalidCache feed_name))

/-- Failure injection for cache_feed_to_disk: the outcome of the
OpenOptions::open call and of the write_to serialization. -/
structure WriteEnv where
  openResult : Except IoError Unit
  serializeOk : Bool
deriving Repr

/-- The environment in which every filesystem write succeeds. -/
def happyWriteEnv : WriteEnv :=
  { openResult := .ok (), serializeOk := true }

/-- The serialization error write_to reports, per variant, matching the
error mapping in cache_feed_to_disk. -/
def serializeError : RssOrAtomFeed → Error
  | .Rss2 _ => Error.new (.RssErr { tag := "write" })
  | .Atom _ => Error.new (.AtomErr "write")

/-- cache_feed_to_disk from main.rs, applied to one feed name and document.
The file is opened with create(true) and truncate(true) before write_to
runs, so a failing serialization leaves an empty file in place of any
previous snapshot; a failing open leaves the cache untouched. Returns the
Result together with the resulting cache state. -/
def cache_feed_to_disk (env : WriteEnv) (feed_name : String)
    (feed : RssOrAtomFeed) (cache : Cache) : Except Error Unit × Cache :=
  match env.openResult with
  | .error e =>
    (.error ((Error.new (.IoErr e)).with_data ("feed[" ++ feed_name ++ "]")),
      cache)
  | .ok _ =>
    if env.serializeOk then
      (.ok (), fun n => if n = feed_name then some feed.encode else cache n)
    else
      (.error (serializeError feed),
        fun n => if n = feed_name then some (.otherBytes "") else cache n)

/-- get_and_cache_new_items_from_feed from main.rs. The injected cache
reader and fetcher are passed as their results for this feed; the injected
cache writer is passed as a state transformer on the cache, and the cache
state is threaded through. The two HashSets are modelled as deduplicated
lists and their difference as a filter; the iteration order of a HashSet
is unspecified in Rust, so the order of the returned Vec is one arbitrary
arrangement of the difference, and the aggregation in main is proved
insensitive to it. -/
def get_and_cache_new_items_from_feed
    (readCacheResult : Except Error RssOrAtomFeed)
    (fetchResult : Except Error RssOrAtomFeed)
    (write_cache : RssOrAtomFeed → Cache → Except Error Unit × Cache)
    (cache : Cache) : Except Error (List String) × Cache :=
  match readCacheResult with
  | .ok cached_feed =>
    match fetchResult with
    | .error e => (.error e, cache)
    | .ok new_feed =>
      let cached_item_links : List Url := cached_feed.get_links.dedup
      let new_item_links : List Url := new_feed.get_links.dedup
      let new_links : List String :=
        (new_item_links.filter
          (fun u => decide (u ∉ cached_item_links))).map Url.toString
      match write_cache new_feed cache with
      | (.error e, cache') => (.error e, cache')
      | (.ok _, cache') => (.ok new_links, cache')
  | .error err =>
    match err with
    | { kind := .IoErr ioe, data := d } =>
      if ioe.kind = .notFound then
        match fetchResult with
        | .error e => (.error e, cache)
        | .ok new_feed =>
          match write_cache new_feed cache with
          | (.error e, cache') => (.error e, cache')
          | (.ok _, cache') => (.ok ([] : List String), cache')
      else (.error { kind := .IoErr ioe, data := d }, cache)
    | e => (.error e, cache)

/-- One unit of work of main.rs: read the cache for a feed, fetch its live
document, diff and rewrite the cache. The live fetch result for each feed
name is supplied by the environment function live. -/
def run_unit (env : WriteEnv) (live : String → Except Error RssOrAtomFeed)
    (cache : Cache) (feed_name : String) :
    Except Error (List String) × Cache :=
  get_and_cache_new_items_from_feed
    (load_cached_feed_from_disk cache feed_name)
    (live feed_name)
    (cache_feed_to_disk env feed_name)
    cache

/-- The fan-out loop of main.rs over the configured feed names, threading
the cache directory state. The units write disjoint files (each only its
own name), so this sequential order models any parallel completion
order. -/
def run (env : WriteEnv) (live : String → Except Error RssOrAtomFeed) :
    List String → Cache → List (String × Except Error (List String)) × Cache
  | [], cache => ([], cache)
  | feed_name :: rest, cache =>
    let step := run_unit env live cache feed_name
    let tail := run env live rest step.2
    ((feed_name, step.1) :: tail.1, tail.2)

/-- Lexicographic strict comparison of character lists, the order in which
a BTreeSet of String iterates. Proved below to agree with the lexicographic
order on String. -/
def charListLt : List Char → List Char → Bool
  | [], [] => false
  | [], _ :: _ => true
  | _ :: _, [] => false
  | a :: as, b :: bs =>
    if a < b then true
    else if b < a then false
    else charListLt as bs

/-- The lexicographic strict order on strings, as a boolean test. -/
def strLt (a b : String) : Bool :=
  charListLt a.data b.data

/-- Model of BTreeSet of String insertion: keep the representing list
strictly sorted in the lexicographic string order, ignoring an element
already present. -/
def btreeInsert (s : String) : List String → List String
  | [] => [s]
  | t :: rest =>
    if strLt s t then s :: t :: rest
    else if s = t then t :: rest
    else t :: btreeInsert s rest

/-- The aggregation loop of main.rs: every successful unit result is
extended into the BTreeSet, every failed unit is only logged and
contributes nothing. -/
def new_unique_links
    (results : List (String × Except Error (List String))) : List String :=
  results.foldl
    (fun acc r =>
      match r.2 with
      | .ok links => links.foldl (fun a s => btreeInsert s a) acc
      | .error _ => acc)
    []

/-- The lines main.rs prints: the iteration of the BTreeSet, which is its
sorted deduplicated content. -/
def printed_output
    (results : List (String × Except Error (List String))) : List String :=
  new_unique_links results

/-- Model of str::trim: remove whitespace characters from both ends of
the string. -/
def strTrim (s : String) : String :=
  String.mk
    (((s.data.dropWhile Char.isWhitespace).reverse.dropWhile
      Char.isWhitespace).reverse)

/-- Model of std::fs::Metadata restricted to the is_file query. -/
structure MetadataM where
  is_file : Bool
deriving DecidableEq, Repr

/-- Model of std::fs::DirEntry together with the outcomes of the
filesystem calls walker.rs performs on it: entry.metadata(),
entry.file_name() and read_to_string(entry.path()). -/
structure DirEntryM where
  file_name : OsStringM
  metadata : Except IoError MetadataM
  contents : Except IoError String

/-- Model of one item yielded by the std::fs::read_dir iterator: either an
io::Result error or a directory entry. -/
inductive ReadDirItem
  | errItem (e : IoError)
  | okItem (entry : DirEntryM)

/-- Model of a config directory: the outcome of read_dir, and on success
the items its iterator yields in order. -/
def DirListing : Type := Except IoError (List ReadDirItem)

/-- walk_files_in_dir from walker.rs: propagate a read_dir failure, then
flatten the iterator (silently dropping items that are themselves errors)
and keep entries whose metadata reads successfully and names a regular
file (entries whose metadata read fails are silently dropped by the
filter). -/
def walk_files_in_dir (conf_dir : DirListing) :
    Except IoError (List DirEntryM) :=
  match conf_dir with
  | .error e => .error e
  | .ok items =>
    .ok ((items.filterMap
      (fun it =>
        match it with
        | .errItem _ => none
        | .okItem entry => some entry)).filter
      (fun entry =>
        match entry.metadata with
        | .error _ => false
        | .ok metadata => metadata.is_file))

/-- The entry loop of walk_conf_dir from walker.rs, with the accumulated
BTreeMap modelled as an association list in insertion order: convert the
file name, read the file, trim and parse the contents as a URL, and
insert, failing on a duplicate name. -/
def walk_conf_dir_loop :
    List DirEntryM → List (String × Url) →
    Except Error (List (String × Url))
  | [], feed_urls => .ok feed_urls
  | entry :: rest, feed_urls =>
    match entry.file_name.into_string with
    | .error filename => .error (Error.new (.InvalidFilename filename))
    | .ok file_name =>
      match entry.contents with
      | .error e => .error (Error.new (.IoErr e))
      | .ok contents =>
        let trimmed_contents := strTrim contents
        match Url.parseResult trimmed_contents with
        | .error err =>
          .error (Error.new (.InvalidUrl err trimmed_contents))
        | .ok url =>
          let feed_already_defined :=
            (feed_urls.map Prod.fst).contains file_name
          if feed_already_defined then
            .error (Error.new (.DuplicateFeed file_name))
          else
            walk_conf_dir_loop rest (feed_urls ++ [(file_name, url)])

/-- walk_conf_dir from walker.rs. -/
def walk_conf_dir (conf_dir : DirListing) :
    Except Error (List (String × Url)) :=
  match walk_files_in_dir conf_dir with
  | .error err => .error (Error.new (.IoErr err))
  | .ok files_in_dir => walk_conf_dir_loop files_in_dir []

end RssChecker

open RssChecker

theorem charListLt_irrefl : ∀ l : List Char, charListLt l l = false
  | [] => rfl
  | a :: as => by simp [charListLt, lt_irrefl, charListLt_irrefl as]

theorem charListLt_asymm : ∀ {as bs : List Char}, charListLt as bs = true → charListLt bs as = false
  | [], [], h => by simp [charListLt] at h
  | _ :: _, [], h => by simp [charListLt] at h
  | [], _ :: _, _ => rfl
  | a :: as, b :: bs, h => by
    by_cases hab : a < b
    · simp [charListLt, hab, asymm hab]
    · by_cases hba : b < a
      · simp [charListLt, hab, hba] at h
      · have heq : a = b := le_antisymm (not_lt.mp hba) (not_lt.mp hab)
        subst heq
        simp [charListLt, lt_irrefl] at h ⊢
        exact charListLt_asymm h

theorem charListLt_trans : ∀ {as bs cs : List Char},
    charListLt as bs = true → charListLt bs cs = true → charListLt as cs = true
  | [], bs, [], _, h2 => by cases bs <;> simp [charListLt] at h2
  | [], _, _ :: _, _, _ => rfl
  | a :: as, bs, [], h1, h2 => by
    cases bs <;> simp [charListLt] at h1 h2
  | a :: as, [], c :: cs, h1, _ => by simp [charListLt] at h1
  | a :: as, b :: bs, c :: cs, h1, h2 => by
    by_cases hab : a < b <;> by_cases hbc : b < c
    · simp [charListLt, lt_trans hab hbc]
    · by_cases hcb : c < b
      · simp [charListLt, hbc, hcb] at h2
      · have : b = c := le_antisymm (not_lt.mp hcb) (not_lt.mp hbc)
        subst this
        simp [charListLt, hab]
    · by_cases hba : b < a
      · simp [charListLt, hab, hba] at h1
      · have : a = b := le_antisymm (not_lt.mp hba) (not_lt.mp hab)
        subst this
        simp [charListLt, hbc]
    · by_cases hba : b < a
      · simp [charListLt, hab, hba] at h1
      · have hab' : a = b := le_antisymm (not_lt.mp hba) (not_lt.mp hab)
        subst hab'
        by_cases hcb : c < a
        · simp [charListLt, hbc, hcb] at h2
        · have : a = c := le_antisymm (not_lt.mp hcb) (not_lt.mp hbc)
          subst this
          simp [charListLt, lt_irrefl] at h1 h2 ⊢
          exact charListLt_trans h1 h2

theorem charListLt_connex : ∀ {as bs : List Char},
    charListLt as bs = false → charListLt bs as = false → as = bs
  | [], [], _, _ => rfl
  | [], _ :: _, h1, _ => by simp [charListLt] at h1
  | _ :: _, [], _, h2 => by simp [charListLt] at h2
  | a :: as, b :: bs, h1, h2 => by
    by_cases hab : a < b
    · simp [charListLt, hab] at h1
    · by_cases hba : b < a
      · simp [charListLt, hba] at h2
      · have heq : a = b := le_antisymm (not_lt.mp hba) (not_lt.mp hab)
        subst heq
        simp [charListLt, lt_irrefl] at h1 h2
        exact congrArg _ (charListLt_connex h1 h2)


theorem charListLt_iff_lex : ∀ {as bs : List Char},
    charListLt as bs = true ↔ List.Lex (· < ·) as bs
  | [], [] => iff_of_false (by simp [charListLt]) (List.Lex.not_nil_right _ _)
  | [], _ :: _ => iff_of_true rfl List.Lex.nil
  | _ :: _, [] => iff_of_false (by simp [charListLt]) (List.Lex.not_nil_right _ _)
  | a :: as, b :: bs => by
    by_cases hab : a < b
    · exact iff_of_true (by simp [charListLt, hab]) (List.Lex.rel hab)
    · by_cases hba : b < a
      · refine iff_of_false (by simp [charListLt, hab, hba]) ?_
        intro h
        cases h with
        | cons h' => exact lt_irrefl _ hba
        | rel h' => exact hab h'
      · have heq : a = b := le_antisymm (not_lt.mp hba) (not_lt.mp hab)
        subst heq
        rw [List.Lex.cons_iff]
        simp only [charListLt, lt_irrefl, if_false]
        exact charListLt_iff_lex

theorem strLt_iff_lt (a b : String) : strLt a b = true ↔ a < b := by
  rw [String.lt_iff_toList_lt]
  exact charListLt_iff_lex

theorem strLt_trans {a b c : String} (h1 : strLt a b = true)
    (h2 : strLt b c = true) : strLt a c = true :=
  charListLt_trans h1 h2

theorem strLt_irrefl (a : String) : strLt a a = false :=
  charListLt_irrefl _

theorem strLt_total {a b : String} (hne : a ≠ b) :
    strLt a b = true ∨ strLt b a = true := by
  by_cases h1 : strLt a b = true
  · exact Or.inl h1
  · by_cases h2 : strLt b a = true
    · exact Or.inr h2
    · exact absurd (String.ext (charListLt_connex
        (by simpa [strLt] using h1) (by simpa [strLt] using h2))) hne

theorem mem_btreeInsert (x s : String) :
    ∀ l : List String, x ∈ btreeInsert s l ↔ x = s ∨ x ∈ l
  | [] => by simp [btreeInsert]
  | t :: rest => by
    by_cases h1 : strLt s t
    · rw [btreeInsert, if_pos h1]
      simp
    · by_cases h2 : s = t
      · subst h2
        rw [btreeInsert, if_neg h1, if_pos rfl]
        simp
      · rw [btreeInsert, if_neg h1, if_neg h2]
        simp [mem_btreeInsert x s rest]
        tauto

theorem btreeInsert_sorted (s : String) :
    ∀ {l : List String}, l.Sorted (fun a b => strLt a b = true) →
      (btreeInsert s l).Sorted (fun a b => strLt a b = true)
  | [], _ => List.sorted_singleton s
  | t :: rest, h => by
    rw [List.sorted_cons] at h
    obtain ⟨hhead, hrest⟩ := h
    by_cases h1 : strLt s t
    · rw [btreeInsert, if_pos h1, List.sorted_cons]
      refine ⟨?_, List.sorted_cons.mpr ⟨hhead, hrest⟩⟩
      intro b hb
      rcases List.mem_cons.mp hb with hb | hb
      · exact hb ▸ h1
      · exact strLt_trans h1 (hhead b hb)
    · by_cases h2 : s = t
      · rw [btreeInsert, if_neg h1, if_pos h2, List.sorted_cons]
        exact ⟨hhead, hrest⟩
      · rw [btreeInsert, if_neg h1, if_neg h2, List.sorted_cons]
        refine ⟨?_, btreeInsert_sorted s hrest⟩
        intro b hb
        rcases (mem_btreeInsert b s rest).mp hb with hb | hb
        · subst hb
          rcases strLt_total (Ne.symm h2) with h3 | h3
          · exact h3
          · exact absurd h3 h1
        · exact hhead b hb


theorem mem_linksFold (x : String) :
    ∀ (links acc : List String),
      x ∈ links.foldl (fun a s => btreeInsert s a) acc ↔ x ∈ acc ∨ x ∈ links
  | [], acc => by simp
  | l :: ls, acc => by
    simp only [List.foldl_cons]
    rw [mem_linksFold x ls (btreeInsert l acc), mem_btreeInsert]
    simp
    tauto

theorem linksFold_sorted :
    ∀ (links acc : List String), acc.Sorted (fun a b => strLt a b = true) →
      (links.foldl (fun a s => btreeInsert s a) acc).Sorted
        (fun a b => strLt a b = true)
  | [], _, h => h
  | l :: ls, acc, h => linksFold_sorted ls _ (btreeInsert_sorted l h)

theorem mem_aggFold (x : String) :
    ∀ (results : List (String × Except Error (List String)))
      (acc : List String),
      x ∈ results.foldl
        (fun acc r =>
          match r.2 with
          | .ok links => links.foldl (fun a s => btreeInsert s a) acc
          | .error _ => acc) acc ↔
      x ∈ acc ∨ ∃ r ∈ results, ∃ links, r.2 = .ok links ∧ x ∈ links
  | [], acc => by simp
  | ⟨n, res⟩ :: rest, acc => by
    simp only [List.foldl_cons]
    cases res with
    | ok links =>
      rw [mem_aggFold x rest _, mem_linksFold]
      simp
      tauto
    | error e =>
      rw [mem_aggFold x rest acc]
      simp

theorem aggFold_sorted :
    ∀ (results : List (String × Except Error (List String)))
      (acc : List String), acc.Sorted (fun a b => strLt a b = true) →
      (results.foldl
        (fun acc r =>
          match r.2 with
          | .ok links => links.foldl (fun a s => btreeInsert s a) acc
          | .error _ => acc) acc).Sorted (fun a b => strLt a b = true)
  | [], _, h => h
  | ⟨n, res⟩ :: rest, acc, h => by
    simp only [List.foldl_cons]
    cases res with
    | ok links => exact aggFold_sorted rest _ (linksFold_sorted links acc h)
    | error e => exact aggFold_sorted rest acc h

theorem mem_new_unique_links (x : String)
    (results : List (String × Except Error (List String))) :
    x ∈ new_unique_links results ↔
      ∃ r ∈ results, ∃ links, r.2 = .ok links ∧ x ∈ links := by
  rw [new_unique_links, mem_aggFold]
  simp

theorem new_unique_links_sorted
    (results : List (String × Except Error (List String))) :
    (new_unique_links results).Sorted (fun a b => strLt a b = true) :=
  aggFold_sorted results [] (List.sorted_nil)

theorem sorted_mem_ext :
    ∀ {l₁ l₂ : List String}, l₁.Sorted (fun a b => strLt a b = true) →
      l₂.Sorted (fun a b => strLt a b = true) →
      (∀ x, x ∈ l₁ ↔ x ∈ l₂) → l₁ = l₂
  | [], [], _, _, _ => rfl
  | [], b :: l₂, _, _, hm =>
    absurd ((hm b).mpr (List.mem_cons_self b l₂)) (List.not_mem_nil b)
  | a :: l₁, [], _, _, hm =>
    absurd ((hm a).mp (List.mem_cons_self a l₁)) (List.not_mem_nil a)
  | a :: l₁, b :: l₂, h₁, h₂, hm => by
    have hab : a = b := by
      rcases List.mem_cons.mp ((hm a).mp (List.mem_cons_self a l₁)) with h | h
      · exact h
      · have hba : strLt b a = true := List.rel_of_sorted_cons h₂ a h
        rcases List.mem_cons.mp ((hm b).mpr (List.mem_cons_self b l₂)) with h' | h'
        · exact h'.symm
        · have hab' : strLt a b = true := List.rel_of_sorted_cons h₁ b h'
          have := strLt_trans hab' hba
          rw [strLt_irrefl a] at this
          cases this
    subst hab
    have htails : ∀ x, x ∈ l₁ ↔ x ∈ l₂ := by
      intro x
      constructor
      · intro hx
        have hax : strLt a x = true := List.rel_of_sorted_cons h₁ x hx
        rcases List.mem_cons.mp ((hm x).mp (List.mem_cons_of_mem a hx)) with h | h
        · subst h
          rw [strLt_irrefl] at hax
          cases hax
        · exact h
      · intro hx
        have hax : strLt a x = true := List.rel_of_sorted_cons h₂ x hx
        rcases List.mem_cons.mp ((hm x).mpr (List.mem_cons_of_mem a hx)) with h | h
        · subst h
          rw [strLt_irrefl] at hax
          cases hax
        · exact h
    exact congrArg (a :: ·) (sorted_mem_ext h₁.tail h₂.tail htails)

theorem new_unique_links_perm
    {results₁ results₂ : List (String × Except Error (List String))}
    (h : results₁.Perm results₂) :
    new_unique_links results₁ = new_unique_links results₂ := by
  refine sorted_mem_ext (new_unique_links_sorted _) (new_unique_links_sorted _) ?_
  intro x
  rw [mem_new_unique_links, mem_new_unique_links]
  constructor
  · rintro ⟨r, hr, links, hok, hx⟩
    exact ⟨r, h.mem_iff.mp hr, links, hok, hx⟩
  · rintro ⟨r, hr, links, hok, hx⟩
    exact ⟨r, h.mem_iff.mpr hr, links, hok, hx⟩

theorem load_of_encode {cache : Cache} {n : String} {f : RssOrAtomFeed}
    (h : cache n = some f.encode) :
    load_cached_feed_from_disk cache n = .ok f := by
  cases f <;> simp [load_cached_feed_from_disk, h, RssOrAtomFeed.encode]

theorem run_unit_cached {cache : Cache} {n : String} {f g : RssOrAtomFeed}
    {live : String → Except Error RssOrAtomFeed}
    (h1 : cache n = some f.encode) (h2 : live n = .ok g) :
    run_unit happyWriteEnv live cache n =
      (.ok ((g.get_links.dedup.filter
        (fun u => decide (u ∉ f.get_links.dedup))).map Url.toString),
       fun m => if m = n then some g.encode else cache m) := by
  rw [run_unit, load_of_encode h1, h2]
  simp [get_and_cache_new_items_from_feed, cache_feed_to_disk, happyWriteEnv]

theorem run_unit_nocache {cache : Cache} {n : String} {g : RssOrAtomFeed}
    {live : String → Except Error RssOrAtomFeed}
    (h1 : cache n = none) (h2 : live n = .ok g) :
    run_unit happyWriteEnv live cache n =
      (.ok [], fun m => if m = n then some g.encode else cache m) := by
  rw [run_unit, h2]
  simp [load_cached_feed_from_disk, h1, get_and_cache_new_items_from_feed,
    cache_feed_to_disk, happyWriteEnv, Error.with_data, Error.new]

theorem run_unit_frame (env : WriteEnv)
    (live : String → Except Error RssOrAtomFeed) (cache : Cache)
    (n m : String) (hm : m ≠ n) :
    (run_unit env live cache n).2 m = cache m := by
  have hwrite : ∀ g, ((cache_feed_to_disk env n g cache).2) m = cache m := by
    intro g
    rcases env with ⟨openRes, serOk⟩
    cases openRes with
    | error e => simp [cache_feed_to_disk]
    | ok u =>
      cases serOk <;> simp [cache_feed_to_disk, hm]
  rw [run_unit]
  rcases hcn : cache n with _ | fc
  · simp only [get_and_cache_new_items_from_feed, load_cached_feed_from_disk, hcn]
    simp only [Error.new, Error.with_data]
    cases hl : live n with
    | error e => simp
    | ok g =>
      simp only []
      rcases hw : cache_feed_to_disk env n g cache with ⟨res, cache'⟩
      have := hwrite g
      rw [hw] at this
      cases res <;> simp [this]
  · rcases fc with c | f | raw
    · simp only [get_and_cache_new_items_from_feed, load_cached_feed_from_disk, hcn]
      cases hl : live n with
      | error e => simp
      | ok g =>
        rcases hw : cache_feed_to_disk env n g cache with ⟨res, cache'⟩
        have := hwrite g
        rw [hw] at this
        cases res <;> simp [hw, this]
    · simp only [get_and_cache_new_items_from_feed, load_cached_feed_from_disk, hcn]
      cases hl : live n with
      | error e => simp
      | ok g =>
        rcases hw : cache_feed_to_disk env n g cache with ⟨res, cache'⟩
        have := hwrite g
        rw [hw] at this
        cases res <;> simp [hw, this]
    · simp [get_and_cache_new_items_from_feed, load_cached_feed_from_disk, hcn,
        Error.new]

theorem run_unit_fetch_error {env : WriteEnv} {cache : Cache} {n : String}
    {e : Error} {live : String → Except Error RssOrAtomFeed}
    (h2 : live n = .error e) :
    (run_unit env live cache n).2 = cache ∧
      (run_unit env live cache n).1.isOk = false := by
  rw [run_unit, h2]
  rcases hcn : cache n with _ | fc
  · simp [get_and_cache_new_items_from_feed, load_cached_feed_from_disk, hcn,
      Error.new, Error.with_data, Except.isOk, Except.toBool]
  · rcases fc with c | f | raw <;>
      simp [get_and_cache_new_items_from_feed, load_cached_feed_from_disk, hcn,
        Error.new, Except.isOk, Except.toBool]

theorem run_unit_ok_writes {cache : Cache} {n : String} {g : RssOrAtomFeed}
    {live : String → Except Error RssOrAtomFeed}
    (h2 : live n = .ok g)
    (hok : (run_unit happyWriteEnv live cache n).1.isOk = true) :
    (run_unit happyWriteEnv live cache n).2 n = some g.encode := by
  rcases hcn : cache n with _ | fc
  · rw [run_unit_nocache hcn h2]
    simp
  · rcases fc with c | f | raw
    · rw [run_unit_cached (f := .Rss2 c) (by simpa [RssOrAtomFeed.encode] using hcn) h2]
      simp
    · rw [run_unit_cached (f := .Atom f) (by simpa [RssOrAtomFeed.encode] using hcn) h2]
      simp
    · rw [run_unit, h2] at hok
      simp [get_and_cache_new_items_from_feed, load_cached_feed_from_disk, hcn,
        Error.new, Except.isOk, Except.toBool] at hok

theorem run_frame (env : WriteEnv)
    (live : String → Except Error RssOrAtomFeed) :
    ∀ (names : List String) (cache : Cache) (m : String), m ∉ names →
      (run env live names cache).2 m = cache m
  | [], _, _, _ => rfl
  | n :: rest, cache, m, hm => by
    rw [run]
    have hmn : m ≠ n := fun h => hm (h ▸ List.mem_cons_self n rest)
    have hmr : m ∉ rest := fun h => hm (List.mem_cons_of_mem n h)
    simp only []
    rw [run_frame env live rest _ m hmr, run_unit_frame env live cache n m hmn]

theorem run_cache_after (live : String → Except Error RssOrAtomFeed)
    (docs : String → RssOrAtomFeed) :
    ∀ (names : List String) (cache : Cache), names.Nodup →
      (∀ n ∈ names, live n = .ok (docs n)) →
      (∀ r ∈ (run happyWriteEnv live names cache).1, r.2.isOk = true) →
      ∀ n ∈ names,
        (run happyWriteEnv live names cache).2 n = some (docs n).encode
  | [], _, _, _, _, n, hn => absurd hn (List.not_mem_nil n)
  | n0 :: rest, cache, hnd, hlive, hok, n, hn => by
    rw [run] at hok ⊢
    simp only [List.mem_cons] at hok
    have hok0 : (run_unit happyWriteEnv live cache n0).1.isOk = true := by
      exact hok _ (Or.inl rfl)
    have hokrest : ∀ r ∈ (run happyWriteEnv live rest
        (run_unit happyWriteEnv live cache n0).2).1, r.2.isOk = true := by
      intro r hr
      exact hok r (Or.inr hr)
    rcases List.mem_cons.mp hn with hn0 | hnr
    · subst hn0
      have hn0rest : n ∉ rest := (List.nodup_cons.mp hnd).1
      rw [run_frame happyWriteEnv live rest _ n hn0rest]
      exact run_unit_ok_writes (hlive n (List.mem_cons_self n rest)) hok0
    · exact run_cache_after live docs rest _ (List.nodup_cons.mp hnd).2
        (fun m hm => hlive m (List.mem_cons_of_mem n0 hm)) hokrest n hnr

theorem diff_filter_self (g : RssOrAtomFeed) :
    (g.get_links.dedup.filter
      (fun u => decide (u ∉ g.get_links.dedup))).map Url.toString = [] := by
  rw [List.filter_eq_nil_iff.mpr, List.map_nil]
  intro u hu
  simp only [decide_eq_true_eq, not_not]
  exact hu

theorem run_unit_unchanged_feed {cache : Cache} {n : String}
    {g : RssOrAtomFeed} {live : String → Except Error RssOrAtomFeed}
    (h1 : cache n = some g.encode) (h2 : live n = .ok g) :
    run_unit happyWriteEnv live cache n =
      (.ok [], fun m => if m = n then some g.encode else cache m) := by
  rw [run_unit_cached h1 h2, diff_filter_self]

theorem run_second_results (live : String → Except Error RssOrAtomFeed)
    (docs : String → RssOrAtomFeed) :
    ∀ (names : List String) (cache : Cache), names.Nodup →
      (∀ n ∈ names, live n = .ok (docs n)) →
      (∀ n ∈ names, cache n = some (docs n).encode) →
      (run happyWriteEnv live names cache).1 =
        names.map (fun n => (n, .ok []))
  | [], _, _, _, _ => rfl
  | n0 :: rest, cache, hnd, hlive, hcache => by
    rw [run]
    have hstep := run_unit_unchanged_feed
      (hcache n0 (List.mem_cons_self n0 rest))
      (hlive n0 (List.mem_cons_self n0 rest))
    rw [hstep]
    simp only [List.map_cons]
    refine congrArg (fun l => (n0, Except.ok []) :: l) ?_
    refine run_second_results live docs rest _ (List.nodup_cons.mp hnd).2
      (fun m hm => hlive m (List.mem_cons_of_mem n0 hm)) ?_
    intro m hm
    have hmn : m ≠ n0 := by
      intro h
      exact (List.nodup_cons.mp hnd).1 (h ▸ hm)
    simp only [if_neg hmn]
    exact hcache m (List.mem_cons_of_mem n0 hm)

theorem new_unique_links_all_empty :
    ∀ names : List String,
      new_unique_links (names.map (fun n => (n, .ok []))) = []
  | [] => rfl
  | n :: rest => new_unique_links_all_empty rest

def docHasLink : RssOrAtomFeed → Url → Prop
  | .Rss2 ch, u => ∃ it ∈ ch.items, ∃ l, it.link = some l ∧ Url.parse l = some u
  | .Atom f, u => ∃ en ∈ f.entries, ∃ al ∈ en.links, Url.parse al.href = some u

theorem mem_get_links_iff (doc : RssOrAtomFeed) (u : Url) :
    u ∈ doc.get_links ↔ docHasLink doc u := by
  cases doc with
  | Rss2 ch =>
    simp only [RssOrAtomFeed.get_links, Channel.get_links, docHasLink,
      List.mem_filterMap]
    tauto
  | Atom f =>
    simp only [RssOrAtomFeed.get_links, Feed.get_links, docHasLink,
      List.mem_filterMap, List.mem_map, List.mem_flatten]
    constructor
    · rintro ⟨s, ⟨al, ⟨⟨links, ⟨⟨en, hen, hlinks⟩, hal⟩⟩, hhref⟩⟩, hp⟩
      subst hlinks
      subst hhref
      exact ⟨en, hen, al, hal, hp⟩
    · rintro ⟨en, hen, al, hal, hp⟩
      exact ⟨al.href, ⟨al, ⟨⟨en.links, ⟨⟨en, hen, rfl⟩, hal⟩⟩, rfl⟩⟩, hp⟩

def diffSpec (cached_doc new_doc : RssOrAtomFeed)
    (result : Except Error (List String)) : Prop :=
  ∃ new_links : List String, result = .ok new_links ∧
    ∀ s, s ∈ new_links ↔ ∃ u : Url,
      docHasLink new_doc u ∧ ¬ docHasLink cached_doc u ∧ s = u.toString

/-- C1: for every cached feed document and every freshly fetched feed
document, the per-feed diff is exactly the set difference of the fresh link
set minus the cached link set, where each side link set is derived by
extracting each item link field and keeping only the strings that parse as
absolute URLs; items whose link is missing or unparseable take part in
neither side. -/
theorem diff_equals_fresh_minus_cached
    (cache : Cache) (live : String → Except Error RssOrAtomFeed)
    (feed_name : String) (cached_doc new_doc : RssOrAtomFeed)
    (h1 : cache feed_name = some cached_doc.encode)
    (h2 : live feed_name = .ok new_doc) :
    diffSpec cached_doc new_doc (run_unit happyWriteEnv live cache feed_name).1 := by
  rw [run_unit_cached h1 h2]
  refine ⟨_, rfl, ?_⟩
  intro s
  simp only [List.mem_map, List.mem_filter, List.mem_dedup, decide_eq_true_eq,
    mem_get_links_iff]
  constructor
  · rintro ⟨u, ⟨hn, hc⟩, rfl⟩
    exact ⟨u, hn, hc, rfl⟩
  · rintro ⟨u, hn, hc, rfl⟩
    exact ⟨u, ⟨hn, hc⟩, rfl⟩

def exampleCachedChannel : Channel :=
  ⟨[⟨some "http://a/"⟩, ⟨some "http://b/"⟩]⟩

def exampleFreshChannel : Channel :=
  ⟨[⟨some "http://b/"⟩, ⟨some "http://c/"⟩]⟩

/-- C1 witness: cached links A and B against fresh links B and C yield
exactly the single new link C. -/
theorem diff_equals_fresh_minus_cached_witness :
    ((fun _ => some (FileContent.rssXml exampleCachedChannel) : Cache) "feed" =
      some (RssOrAtomFeed.Rss2 exampleCachedChannel).encode) ∧
    ((fun _ => Except.ok (RssOrAtomFeed.Rss2 exampleFreshChannel) :
      String → Except Error RssOrAtomFeed) "feed" =
      .ok (.Rss2 exampleFreshChannel)) ∧
    diffSpec (.Rss2 exampleCachedChannel) (.Rss2 exampleFreshChannel)
      (run_unit happyWriteEnv
        (fun _ => .ok (.Rss2 exampleFreshChannel))
        (fun _ => some (FileContent.rssXml exampleCachedChannel)) "feed").1 ∧
    (run_unit happyWriteEnv
        (fun _ => .ok (.Rss2 exampleFreshChannel))
        (fun _ => some (FileContent.rssXml exampleCachedChannel)) "feed").1 =
      .ok ["http://c/"] :=
  ⟨rfl, rfl,
    diff_equals_fresh_minus_cached
      (fun _ => some (FileContent.rssXml exampleCachedChannel))
      (fun _ => .ok (.Rss2 exampleFreshChannel)) "feed"
      (.Rss2 exampleCachedChannel) (.Rss2 exampleFreshChannel) rfl rfl,
    rfl⟩

/-- C2: for every feed whose cache read reports not-found, a successful
unit returns the empty new-link list, writes the freshly fetched document
as the cache file for that feed, and contributes no links to the run
output. -/
theorem first_run_empty_and_caches
    (cache : Cache) (live : String → Except Error RssOrAtomFeed)
    (feed_name : String) (new_doc : RssOrAtomFeed)
    (h1 : cache feed_name = none)
    (h2 : live feed_name = .ok new_doc) :
    (run_unit happyWriteEnv live cache feed_name).1 = .ok [] ∧
    (run_unit happyWriteEnv live cache feed_name).2 feed_name =
      some new_doc.encode ∧
    printed_output
      [(feed_name, (run_unit happyWriteEnv live cache feed_name).1)] = [] := by
  rw [run_unit_nocache h1 h2]
  exact ⟨rfl, by simp, rfl⟩

/-- C2 witness: a feed with no cache file and one fresh link yields the
empty list and a cache file holding the fresh document. -/
theorem first_run_empty_and_caches_witness :
    ((fun _ => none : Cache) "feed" = none) ∧
    ((fun _ => Except.ok (RssOrAtomFeed.Rss2 ⟨[⟨some "http://a/1"⟩]⟩) :
      String → Except Error RssOrAtomFeed) "feed" =
      .ok (.Rss2 ⟨[⟨some "http://a/1"⟩]⟩)) ∧
    ((run_unit happyWriteEnv
        (fun _ => .ok (.Rss2 ⟨[⟨some "http://a/1"⟩]⟩))
        (fun _ => none) "feed").1 = .ok [] ∧
      (run_unit happyWriteEnv
        (fun _ => .ok (.Rss2 ⟨[⟨some "http://a/1"⟩]⟩))
        (fun _ => none) "feed").2 "feed" =
        some (RssOrAtomFeed.Rss2 ⟨[⟨some "http://a/1"⟩]⟩).encode ∧
      printed_output
        [("feed", (run_unit happyWriteEnv
          (fun _ => .ok (.Rss2 ⟨[⟨some "http://a/1"⟩]⟩))
          (fun _ => none) "feed").1)] = []) :=
  ⟨rfl, rfl,
    first_run_empty_and_caches (fun _ => none)
      (fun _ => .ok (.Rss2 ⟨[⟨some "http://a/1"⟩]⟩)) "feed"
      (.Rss2 ⟨[⟨some "http://a/1"⟩]⟩) rfl rfl⟩

theorem strLt_ne {a b : String} (h : strLt a b = true) : a ≠ b := by
  intro heq
  subst heq
  rw [strLt_irrefl] at h
  cases h

/-- C3: the aggregated output is the union of all successful per-unit diff
results with duplicates collapsed, emitted sorted by the total
lexicographic string order, and it is invariant under any reordering of the
per-feed results; the two-feed example of the spec evaluates to the claimed
two-line output. -/
theorem aggregated_output_sorted_dedup_union
    (results₁ results₂ : List (String × Except Error (List String)))
    (hperm : results₁.Perm results₂) :
    printed_output results₁ = printed_output results₂ ∧
    (∀ x, x ∈ printed_output results₁ ↔
      ∃ r ∈ results₁, ∃ links, r.2 = .ok links ∧ x ∈ links) ∧
    (printed_output results₁).Sorted (· < ·) ∧
    (printed_output results₁).Nodup ∧
    printed_output
      [("A", .ok ["http://x/1"]), ("B", .ok ["http://x/1", "http://y/2"])] =
      ["http://x/1", "http://y/2"] := by
  refine ⟨new_unique_links_perm hperm, fun x => mem_new_unique_links x results₁, ?_, ?_, rfl⟩
  · exact (new_unique_links_sorted results₁).imp
      (fun h => (strLt_iff_lt _ _).mp h)
  · exact List.Pairwise.imp (fun h => strLt_ne h) (new_unique_links_sorted results₁)

/-- C3 witness: swapping the two feeds of the spec example leaves the
aggregated output unchanged. -/
theorem aggregated_output_sorted_dedup_union_witness :
    ([("A", (.ok ["http://x/1"] : Except Error (List String))),
      ("B", .ok ["http://x/1", "http://y/2"])].Perm
      [("B", .ok ["http://x/1", "http://y/2"]), ("A", .ok ["http://x/1"])]) ∧
    printed_output
      [("A", .ok ["http://x/1"]), ("B", .ok ["http://x/1", "http://y/2"])] =
      printed_output
      [("B", .ok ["http://x/1", "http://y/2"]), ("A", .ok ["http://x/1"])] :=
  ⟨List.Perm.swap _ _ [],
    (aggregated_output_sorted_dedup_union _ _ (List.Perm.swap _ _ [])).1⟩

/-- C4: a unit that fails contributes no links to the aggregated output
while every other unit diff still appears, and a unit whose fetch fails
leaves the cache untouched because the cache write is never attempted. -/
theorem failing_unit_isolated :
    (∀ (l₁ l₂ : List (String × Except Error (List String)))
        (feed_name : String) (e : Error),
        printed_output (l₁ ++ (feed_name, .error e) :: l₂) =
          printed_output (l₁ ++ l₂)) ∧
    (∀ (env : WriteEnv) (live : String → Except Error RssOrAtomFeed)
        (cache : Cache) (feed_name : String) (e : Error),
        live feed_name = .error e →
        (run_unit env live cache feed_name).2 = cache ∧
        (run_unit env live cache feed_name).1.isOk = false) ∧
    (∀ (l₁ l₂ : List (String × Except Error (List String)))
        (feed_name : String) (e : Error) (x : String),
        (∃ r ∈ l₁ ++ l₂, ∃ links, r.2 = .ok links ∧ x ∈ links) →
        x ∈ printed_output (l₁ ++ (feed_name, .error e) :: l₂)) := by
  refine ⟨?_, ?_, ?_⟩
  · intro l₁ l₂ feed_name e
    simp [printed_output, new_unique_links, List.foldl_append]
  · intro env live cache feed_name e h2
    exact run_unit_fetch_error h2
  · intro l₁ l₂ feed_name e x hx
    have heq : printed_output (l₁ ++ (feed_name, .error e) :: l₂) =
        printed_output (l₁ ++ l₂) := by
      simp [printed_output, new_unique_links, List.foldl_append]
    rw [heq, printed_output]
    exact (mem_new_unique_links x (l₁ ++ l₂)).mpr hx

/-- C4 witness: with one failing feed between two successful ones the
output equals the output of the successful feeds alone, the failing feed
cache file is unchanged, and a successful feed link still appears. -/
theorem failing_unit_isolated_witness :
    (printed_output
      [("good", .ok ["http://g/1"]),
       ("bad", .error (Error.new (.ReqwestErr ⟨"connect"⟩))),
       ("other", .ok ["http://o/1"])] =
      printed_output [("good", .ok ["http://g/1"]), ("other", .ok ["http://o/1"])]) ∧
    printed_output
      [("good", .ok ["http://g/1"]),
       ("bad", .error (Error.new (.ReqwestErr ⟨"connect"⟩))),
       ("other", .ok ["http://o/1"])] = ["http://g/1", "http://o/1"] ∧
    ((fun _ => Except.error (Error.new (.ReqwestErr ⟨"connect"⟩)) :
      String → Except Error RssOrAtomFeed) "bad" =
      .error (Error.new (.ReqwestErr ⟨"connect"⟩))) ∧
    ((run_unit happyWriteEnv
        (fun _ => .error (Error.new (.ReqwestErr ⟨"connect"⟩)))
        (fun _ => some (FileContent.rssXml ⟨[⟨some "http://old/1"⟩]⟩)) "bad").2 =
      (fun _ => some (FileContent.rssXml ⟨[⟨some "http://old/1"⟩]⟩)) ∧
      (run_unit happyWriteEnv
        (fun _ => .error (Error.new (.ReqwestErr ⟨"connect"⟩)))
        (fun _ => some (FileContent.rssXml ⟨[⟨some "http://old/1"⟩]⟩)) "bad").1.isOk
        = false) ∧
    "http://o/1" ∈ printed_output
      ([("good", .ok ["http://g/1"])] ++
        ("bad", .error (Error.new (.ReqwestErr ⟨"connect"⟩))) ::
        [("other", .ok ["http://o/1"])]) :=
  ⟨(failing_unit_isolated).1 [("good", .ok ["http://g/1"])]
      [("other", .ok ["http://o/1"])] "bad"
      (Error.new (.ReqwestErr ⟨"connect"⟩)),
   rfl, rfl,
   (failing_unit_isolated).2.1 happyWriteEnv
      (fun _ => .error (Error.new (.ReqwestErr ⟨"connect"⟩)))
      (fun _ => some (FileContent.rssXml ⟨[⟨some "http://old/1"⟩]⟩)) "bad"
      (Error.new (.ReqwestErr ⟨"connect"⟩)) rfl,
   (failing_unit_isolated).2.2 [("good", .ok ["http://g/1"])]
      [("other", .ok ["http://o/1"])] "bad"
      (Error.new (.ReqwestErr ⟨"connect"⟩)) "http://o/1"
      ⟨("other", .ok ["http://o/1"]), by simp, ["http://o/1"], rfl,
        by simp⟩⟩

/-- C5: running the pipeline twice with every live feed unchanged between
the runs and every unit of the first run successful yields an empty
aggregated output on the second run. -/
theorem second_run_output_empty
    (names : List String) (live : String → Except Error RssOrAtomFeed)
    (docs : String → RssOrAtomFeed) (cache₀ : Cache)
    (hnd : names.Nodup)
    (hlive : ∀ n ∈ names, live n = .ok (docs n))
    (hok1 : ∀ r ∈ (run happyWriteEnv live names cache₀).1, r.2.isOk = true) :
    printed_output
      ((run happyWriteEnv live names
        ((run happyWriteEnv live names cache₀).2)).1) = [] := by
  have hcache : ∀ n ∈ names,
      (run happyWriteEnv live names cache₀).2 n = some (docs n).encode :=
    run_cache_after live docs names cache₀ hnd hlive hok1
  rw [printed_output,
    run_second_results live docs names _ hnd hlive hcache,
    new_unique_links_all_empty]

/-- C5 witness: one feed, no prior cache, unchanged live document: the
second run prints nothing. -/
theorem second_run_output_empty_witness :
    (["feed"] : List String).Nodup ∧
    (∀ n ∈ (["feed"] : List String),
      (fun _ => Except.ok (RssOrAtomFeed.Rss2 ⟨[⟨some "http://a/1"⟩]⟩) :
        String → Except Error RssOrAtomFeed) n =
        .ok ((fun _ => RssOrAtomFeed.Rss2 ⟨[⟨some "http://a/1"⟩]⟩) n)) ∧
    (∀ r ∈ (run happyWriteEnv
        (fun _ => .ok (.Rss2 ⟨[⟨some "http://a/1"⟩]⟩)) ["feed"]
        (fun _ => none)).1, r.2.isOk = true) ∧
    printed_output
      ((run happyWriteEnv (fun _ => .ok (.Rss2 ⟨[⟨some "http://a/1"⟩]⟩))
        ["feed"]
        ((run happyWriteEnv (fun _ => .ok (.Rss2 ⟨[⟨some "http://a/1"⟩]⟩))
          ["feed"] (fun _ => none)).2)).1) = [] := by
  refine ⟨by decide, fun n _ => rfl, ?_, ?_⟩
  · intro r hr
    have : (run happyWriteEnv
        (fun _ => .ok (RssOrAtomFeed.Rss2 ⟨[⟨some "http://a/1"⟩]⟩)) ["feed"]
        (fun _ => none)).1 = [("feed", .ok [])] := rfl
    rw [this] at hr
    rcases List.mem_singleton.mp hr with rfl
    rfl
  · exact second_run_output_empty ["feed"]
      (fun _ => .ok (.Rss2 ⟨[⟨some "http://a/1"⟩]⟩))
      (fun _ => .Rss2 ⟨[⟨some "http://a/1"⟩]⟩) (fun _ => none)
      (by decide) (fun n _ => rfl)
      (by
        intro r hr
        have : (run happyWriteEnv
            (fun _ => .ok (RssOrAtomFeed.Rss2 ⟨[⟨some "http://a/1"⟩]⟩)) ["feed"]
            (fun _ => none)).1 = [("feed", .ok [])] := rfl
        rw [this] at hr
        rcases List.mem_singleton.mp hr with rfl
        rfl)

/-- C6 counterexample: a config file whose content is a space, the letter
x and a space fails with InvalidUrl carrying the trimmed string x, not the
original untrimmed content, refuting the claim that the raw field preserves
the content exactly as given. -/
theorem invalid_url_raw_counterexample :
    walk_conf_dir
      (.ok [.okItem ⟨.valid "feed1", .ok ⟨true⟩, .ok " x "⟩]) =
      .error (Error.new (.InvalidUrl .relativeUrlWithoutBase "x")) ∧
    (("x" : String) == " x ") = false :=
  ⟨rfl, by decide⟩

/-- C6 amended: a config file whose trimmed content does not parse as an
absolute URL fails the load with InvalidUrl whose carried string is the
trimmed content, not the original file content. -/
theorem invalid_url_carries_trimmed
    (entry : DirEntryM) (rest : List ReadDirItem) (fn : String)
    (c : String) (pe : ParseError)
    (hname : entry.file_name = .valid fn)
    (hmeta : entry.metadata = .ok ⟨true⟩)
    (hcont : entry.contents = .ok c)
    (hparse : Url.parseResult (strTrim c) = .error pe) :
    walk_conf_dir (.ok (.okItem entry :: rest)) =
      .error (Error.new (.InvalidUrl pe (strTrim c))) := by
  rcases entry with ⟨f, m, cont⟩
  simp only at hname hmeta hcont
  subst hname hmeta hcont
  simp [walk_conf_dir, walk_files_in_dir, walk_conf_dir_loop,
    OsStringM.into_string, hparse]

/-- C6 amended witness: the space-x-space file fails with InvalidUrl
carrying the trimmed content. -/
theorem invalid_url_carries_trimmed_witness :
    ((⟨.valid "feed1", .ok ⟨true⟩, .ok " x "⟩ : DirEntryM).file_name =
      .valid "feed1") ∧
    ((⟨.valid "feed1", .ok ⟨true⟩, .ok " x "⟩ : DirEntryM).metadata =
      .ok ⟨true⟩) ∧
    ((⟨.valid "feed1", .ok ⟨true⟩, .ok " x "⟩ : DirEntryM).contents =
      .ok " x ") ∧
    Url.parseResult (strTrim " x ") = .error .relativeUrlWithoutBase ∧
    walk_conf_dir
      (.ok [.okItem ⟨.valid "feed1", .ok ⟨true⟩, .ok " x "⟩]) =
      .error (Error.new (.InvalidUrl .relativeUrlWithoutBase (strTrim " x "))) :=
  ⟨rfl, rfl, rfl, rfl,
    invalid_url_carries_trimmed ⟨.valid "feed1", .ok ⟨true⟩, .ok " x "⟩ []
      "feed1" " x " .relativeUrlWithoutBase rfl rfl rfl rfl⟩

/-- C7 counterexample: a directory whose only listing item is itself an
error, and a directory whose only entry has a failing metadata read, both
load successfully as an empty mapping instead of failing with IoErr,
refuting the claim that every listing or metadata error fails the load. -/
theorem listing_errors_skipped_counterexample :
    walk_conf_dir (.ok [.errItem ⟨.otherKind⟩]) = .ok [] ∧
    walk_conf_dir
      (.ok [.okItem ⟨.valid "feed1", .error ⟨.otherKind⟩,
        .ok "http://a.com"⟩]) = .ok [] :=
  ⟨rfl, rfl⟩

/-- C7 amended: an error opening the directory listing or reading an entry
contents fails the whole load with IoErr and no partial mapping is
returned, but an error yielded for an individual item of the directory
iterator, or an error reading an entry metadata, silently skips that
entry. -/
theorem fs_error_handling_split :
    (∀ e : IoError, walk_conf_dir (.error e) =
      .error (Error.new (.IoErr e))) ∧
    (∀ (entry : DirEntryM) (rest : List ReadDirItem) (fn : String)
        (e : IoError),
        entry.file_name = .valid fn →
        entry.metadata = .ok ⟨true⟩ →
        entry.contents = .error e →
        walk_conf_dir (.ok (.okItem entry :: rest)) =
          .error (Error.new (.IoErr e))) ∧
    (∀ (e : IoError) (rest : List ReadDirItem),
        walk_conf_dir (.ok (.errItem e :: rest)) =
          walk_conf_dir (.ok rest)) ∧
    (∀ (entry : DirEntryM) (rest : List ReadDirItem) (e : IoError),
        entry.metadata = .error e →
        walk_conf_dir (.ok (.okItem entry :: rest)) =
          walk_conf_dir (.ok rest)) := by
  refine ⟨fun e => rfl, ?_, ?_, ?_⟩
  · intro entry rest fn e hname hmeta hcont
    rcases entry with ⟨f, m, cont⟩
    simp only at hname hmeta hcont
    subst hname hmeta hcont
    simp [walk_conf_dir, walk_files_in_dir, walk_conf_dir_loop,
      OsStringM.into_string]
  · intro e rest
    simp [walk_conf_dir, walk_files_in_dir]
  · intro entry rest e hmeta
    rcases entry with ⟨f, m, cont⟩
    simp only at hmeta
    subst hmeta
    simp [walk_conf_dir, walk_files_in_dir]

/-- C7 amended witness: concrete instances of all four error-handling
branches. -/
theorem fs_error_handling_split_witness :
    walk_conf_dir (.error ⟨.permissionDenied⟩) =
      .error (Error.new (.IoErr ⟨.permissionDenied⟩)) ∧
    ((⟨.valid "feed1", .ok ⟨true⟩, .error ⟨.permissionDenied⟩⟩ :
        DirEntryM).contents = .error ⟨.permissionDenied⟩) ∧
    walk_conf_dir
      (.ok [.okItem ⟨.valid "feed1", .ok ⟨true⟩,
        .error ⟨.permissionDenied⟩⟩]) =
      .error (Error.new (.IoErr ⟨.permissionDenied⟩)) ∧
    walk_conf_dir (.ok [.errItem ⟨.otherKind⟩]) = walk_conf_dir (.ok []) ∧
    ((⟨.valid "feed1", .error ⟨.otherKind⟩, .ok "http://a.com"⟩ :
        DirEntryM).metadata = .error ⟨.otherKind⟩) ∧
    walk_conf_dir
      (.ok [.okItem ⟨.valid "feed1", .error ⟨.otherKind⟩,
        .ok "http://a.com"⟩]) = walk_conf_dir (.ok []) :=
  ⟨(fs_error_handling_split).1 ⟨.permissionDenied⟩,
   rfl,
   (fs_error_handling_split).2.1 ⟨.valid "feed1", .ok ⟨true⟩,
     .error ⟨.permissionDenied⟩⟩ [] "feed1" ⟨.permissionDenied⟩ rfl rfl rfl,
   (fs_error_handling_split).2.2.1 ⟨.otherKind⟩ [],
   rfl,
   (fs_error_handling_split).2.2.2 ⟨.valid "feed1", .error ⟨.otherKind⟩,
     .ok "http://a.com"⟩ [] ⟨.otherKind⟩ rfl⟩

/-- C8 counterexample: the cached link http colon slash slash a.com and
the fresh link with a trailing slash differ as strings yet are identified
as the same item, and a fresh link with uppercase scheme and host is
emitted in its normalized serialization rather than as the exact feed
string, refuting exact-string identity and exact-string emission. -/
theorem link_identity_exact_string_counterexample :
    (run_unit happyWriteEnv
        (fun _ => .ok (.Rss2 ⟨[⟨some "http://a.com/"⟩]⟩))
        (fun _ => some (RssOrAtomFeed.Rss2 ⟨[⟨some "http://a.com"⟩]⟩).encode)
        "feed").1 = .ok [] ∧
    (("http://a.com/" : String) == "http://a.com") = false ∧
    (run_unit happyWriteEnv
        (fun _ => .ok (.Rss2 ⟨[⟨some "HTTP://Example.com"⟩]⟩))
        (fun _ => some (RssOrAtomFeed.Rss2 (⟨[]⟩ : Channel)).encode)
        "feed").1 = .ok ["http://example.com/"] ∧
    (("HTTP://Example.com" : String) == "http://example.com/") = false :=
  ⟨rfl, by decide, rfl, by decide⟩

/-- C8 amended: two item links are identified as the same item exactly
when their parsed Url values are equal, that is when their serializations
after parser normalization agree, and the string emitted for an item is
the serialization of its parsed URL, which need not equal the raw string
from the feed. -/
theorem link_identity_parsed_url
    (a b : String) (ua ub : Url)
    (ha : Url.parse a = some ua) (hb : Url.parse b = some ub) :
    ((run_unit happyWriteEnv
        (fun _ => .ok (.Rss2 ⟨[⟨some b⟩]⟩))
        (fun _ => some (RssOrAtomFeed.Rss2 ⟨[⟨some a⟩]⟩).encode)
        "feed").1 = .ok [] ↔ ub = ua) ∧
    (run_unit happyWriteEnv
        (fun _ => .ok (.Rss2 ⟨[⟨some b⟩]⟩))
        (fun _ => some (RssOrAtomFeed.Rss2 (⟨[]⟩ : Channel)).encode)
        "feed").1 = .ok [ub.toString] := by
  constructor
  · rw [run_unit_cached rfl rfl]
    simp only [RssOrAtomFeed.get_links, Channel.get_links, List.filterMap,
      ha, hb]
    by_cases hu : ub = ua
    · subst hu
      simp [List.dedup_cons_of_not_mem, diff_filter_self]
    · simp only [List.dedup_nil, List.dedup_cons_of_not_mem (List.not_mem_nil ua),
        List.dedup_cons_of_not_mem (List.not_mem_nil ub)]
      simp [List.filter, hu]
  · rw [run_unit_cached rfl rfl]
    simp only [RssOrAtomFeed.get_links, Channel.get_links, List.filterMap, hb]
    simp [List.filter]

/-- C8 amended witness: the two spellings of the same URL parse to the
same Url value, are identified as the same item, and are emitted in
serialized form. -/
theorem link_identity_parsed_url_witness :
    Url.parse "http://a.com" = some ⟨"http", "a.com", "/"⟩ ∧
    Url.parse "http://a.com/" = some ⟨"http", "a.com", "/"⟩ ∧
    ((run_unit happyWriteEnv
        (fun _ => .ok (.Rss2 ⟨[⟨some "http://a.com/"⟩]⟩))
        (fun _ => some (RssOrAtomFeed.Rss2 ⟨[⟨some "http://a.com"⟩]⟩).encode)
        "feed").1 = .ok [] ↔
      (⟨"http", "a.com", "/"⟩ : Url) = ⟨"http", "a.com", "/"⟩) ∧
    (run_unit happyWriteEnv
        (fun _ => .ok (.Rss2 ⟨[⟨some "http://a.com/"⟩]⟩))
        (fun _ => some (RssOrAtomFeed.Rss2 (⟨[]⟩ : Channel)).encode)
        "feed").1 = .ok [(⟨"http", "a.com", "/"⟩ : Url).toString] :=
  ⟨rfl, rfl,
    (link_identity_parsed_url "http://a.com" "http://a.com/"
      ⟨"http", "a.com", "/"⟩ ⟨"http", "a.com", "/"⟩ rfl rfl).1,
    (link_identity_parsed_url "http://a.com" "http://a.com/"
      ⟨"http", "a.com", "/"⟩ ⟨"http", "a.com", "/"⟩ rfl rfl).2⟩

/-- C9 counterexample: a feed with no cached document and one fresh link
produces the empty new-link list, not the full fresh link set, refuting
the claim that its diff equals all fresh links. -/
theorem first_run_full_diff_counterexample :
    (run_unit happyWriteEnv
        (fun _ => .ok (.Rss2 ⟨[⟨some "http://a/1"⟩]⟩))
        (fun _ => none) "feed").1 = .ok [] ∧
    (RssOrAtomFeed.Rss2 ⟨[⟨some "http://a/1"⟩]⟩).get_links.map Url.toString =
      ["http://a/1"] ∧
    (([] : List String) == ["http://a/1"]) = false := by
  exact ⟨rfl, rfl, by decide⟩

/-- C9 amended: for a feed whose cache read reports not-found, no diff is
computed at all: the unit yields the empty list, no string is ever
reported, and the fresh document is only written to the cache, to serve as
the baseline of the next run. -/
theorem first_run_diff_empty_not_full
    (cache : Cache) (live : String → Except Error RssOrAtomFeed)
    (feed_name : String) (new_doc : RssOrAtomFeed)
    (h1 : cache feed_name = none)
    (h2 : live feed_name = .ok new_doc) :
    (run_unit happyWriteEnv live cache feed_name).1 = .ok [] ∧
    (run_unit happyWriteEnv live cache feed_name).2 feed_name =
      some new_doc.encode ∧
    ∀ s : String, ¬ (∃ links, (run_unit happyWriteEnv live cache
      feed_name).1 = .ok links ∧ s ∈ links) := by
  rw [run_unit_nocache h1 h2]
  refine ⟨rfl, by simp, ?_⟩
  rintro s ⟨links, hl, hs⟩
  simp only [Except.ok.injEq] at hl
  subst hl
  exact List.not_mem_nil s hs

/-- C9 amended witness: the no-cache unit at a concrete feed returns the
empty list and caches the fresh document. -/
theorem first_run_diff_empty_not_full_witness :
    ((fun _ => none : Cache) "feed" = none) ∧
    ((fun _ => Except.ok (RssOrAtomFeed.Rss2 ⟨[⟨some "http://a/1"⟩]⟩) :
      String → Except Error RssOrAtomFeed) "feed" =
      .ok (.Rss2 ⟨[⟨some "http://a/1"⟩]⟩)) ∧
    ((run_unit happyWriteEnv
        (fun _ => .ok (.Rss2 ⟨[⟨some "http://a/1"⟩]⟩))
        (fun _ => none) "feed").1 = .ok [] ∧
      (run_unit happyWriteEnv
        (fun _ => .ok (.Rss2 ⟨[⟨some "http://a/1"⟩]⟩))
        (fun _ => none) "feed").2 "feed" =
        some (RssOrAtomFeed.Rss2 ⟨[⟨some "http://a/1"⟩]⟩).encode ∧
      ∀ s : String, ¬ (∃ links, (run_unit happyWriteEnv
        (fun _ => .ok (.Rss2 ⟨[⟨some "http://a/1"⟩]⟩))
        (fun _ => none) "feed").1 = .ok links ∧ s ∈ links)) :=
  ⟨rfl, rfl,
    first_run_diff_empty_not_full (fun _ => none)
      (fun _ => .ok (.Rss2 ⟨[⟨some "http://a/1"⟩]⟩)) "feed"
      (.Rss2 ⟨[⟨some "http://a/1"⟩]⟩) rfl rfl⟩

/-- C10: when the cache file open succeeds but serialization fails, the
write returns an error only after the file was already opened with
truncation, so the previous snapshot is destroyed: the on-disk state is an
empty unparseable file and no longer any serialized document. -/
theorem cache_write_not_atomic (feed_name : String) (feed : RssOrAtomFeed)
    (cache : Cache) :
    ((cache_feed_to_disk ⟨.ok (), false⟩ feed_name feed cache).1).isOk =
      false ∧
    (cache_feed_to_disk ⟨.ok (), false⟩ feed_name feed cache).2 feed_name =
      some (.otherBytes "") ∧
    ∀ doc : RssOrAtomFeed,
      (cache_feed_to_disk ⟨.ok (), false⟩ feed_name feed cache).2 feed_name ≠
        some doc.encode := by
  refine ⟨?_, ?_, ?_⟩
  · cases feed <;> rfl
  · simp [cache_feed_to_disk]
  · intro doc
    cases doc <;> simp [cache_feed_to_disk, RssOrAtomFeed.encode]

/-- C10 witness: a failing serialization over an existing RSS snapshot
leaves a truncated file. -/
theorem cache_write_not_atomic_witness :
    ((cache_feed_to_disk ⟨.ok (), false⟩ "feed"
        (.Rss2 ⟨[⟨some "http://new/1"⟩]⟩)
        (fun _ => some (.rssXml ⟨[⟨some "http://old/1"⟩]⟩))).1).isOk =
      false ∧
    (cache_feed_to_disk ⟨.ok (), false⟩ "feed"
        (.Rss2 ⟨[⟨some "http://new/1"⟩]⟩)
        (fun _ => some (.rssXml ⟨[⟨some "http://old/1"⟩]⟩))).2 "feed" =
      some (.otherBytes "") ∧
    ∀ doc : RssOrAtomFeed,
      (cache_feed_to_disk ⟨.ok (), false⟩ "feed"
          (.Rss2 ⟨[⟨some "http://new/1"⟩]⟩)
          (fun _ => some (.rssXml ⟨[⟨some "http://old/1"⟩]⟩))).2 "feed" ≠
        some doc.encode :=
  cache_write_not_atomic "feed" (.Rss2 ⟨[⟨some "http://new/1"⟩]⟩)
    (fun _ => some (.rssXml ⟨[⟨some "http://old/1"⟩]⟩))
